import Mathlib

/-!
Verification of the BrainGrid spiking-synapse state engine and static
connectivity generator, shallowly embedded from
`src/common/AllSpikingSynapses.h` and `src/common/ConnStatic.cpp`.

`BGFLOAT` is modelled as `Rat`; the floating-point exponential used by the
decay model is kept abstract as a function parameter `bgexp`, so every
definition stays executable.
-/

namespace BrainGrid

/-- The simulator's floating-point scalar type, modelled as the rationals. -/
abbrev BGFLOAT := Rat

/-- Edge (synapse) kind, as in the simulator's `synapseType` enumeration. -/
inductive synapseType
  | II
  | IE
  | EI
  | EE
  | STYPE_UNDEF
deriving DecidableEq, Repr

/-- One edge's slot of the synapse store: the per-edge fields of
`AllSpikingSynapses` (`decay`, `tau`, `total_delay`, `delayQueue`,
`delayIdx`, `ldelayQueue`) together with the base-class response state
`psr` and weight `W` that the response-change update reads and writes.
The bit-packed delay-queue word is a natural number used as a bitmask;
the integer delay fields are naturals, per the spec's invariants that
they are nonnegative and `delayIdx` wraps modulo `ldelayQueue`. -/
structure SpikingSynapse where
  decay : BGFLOAT
  tau : BGFLOAT
  psr : BGFLOAT
  W : BGFLOAT
  total_delay : Nat
  delayQueue : Nat
  delayIdx : Nat
  ldelayQueue : Nat
deriving DecidableEq, Repr

/-- Set bit `i` of the word `w`. -/
def setBit (w i : Nat) : Nat := w ||| 2 ^ i

/-- Clear bit `i` of the word `w`. -/
def clearBit (w i : Nat) : Nat := if w.testBit i then w - 2 ^ i else w

/-- Modelled from the spec: `isEventDue` / `isSpikeQueue` (declared in
`AllSpikingSynapses.h`, body not in `src/`) tests the delay-queue bit at
the current `delayIdx`; read-only, no mutation (spec section 4.2). -/
def isSpikeQueue (s : SpikingSynapse) : Bool :=
  s.delayQueue.testBit s.delayIdx

/-- Modelled from the spec: `advance` of the delay queue (spec section 4.2)
clears the bit at the current `delayIdx` and increments `delayIdx`
modulo `ldelayQueue`; called once per edge per simulation step. -/
def advanceDelayQueue (s : SpikingSynapse) : SpikingSynapse :=
  { s with delayQueue := clearBit s.delayQueue s.delayIdx
           delayIdx := (s.delayIdx + 1) % s.ldelayQueue }

/-- Iterate `advanceDelayQueue` `k` times. -/
def advanceN : Nat → SpikingSynapse → SpikingSynapse
  | 0, s => s
  | k + 1, s => advanceDelayQueue (advanceN k s)

/-- The overrun condition the delay queue flags when an arrival is
scheduled into an already-occupied slot (spec section 4.2). -/
inductive SpikeQueueError
  | overrun
deriving DecidableEq, Repr

/-- Modelled from the spec: `preSpikeHit` / `scheduleArrival` (declared in
`AllSpikingSynapses.h`, body not in `src/`) sets the delay-queue bit at
position `(delayIdx + total_delay) % ldelayQueue`; calling it when that
slot already holds a pending arrival signals an overrun condition and is
flagged as an error rather than silently overwritten (spec section 4.2). -/
def preSpikeHit (s : SpikingSynapse) : Except SpikeQueueError SpikingSynapse :=
  let idx := (s.delayIdx + s.total_delay) % s.ldelayQueue
  if s.delayQueue.testBit idx then
    Except.error SpikeQueueError.overrun
  else
    Except.ok { s with delayQueue := setBit s.delayQueue idx }

/-- Modelled from the spec: `updateDecay(iSyn, deltaT)` (declared in
`AllSpikingSynapses.h`, body not in `src/`) recomputes the cached decay
coefficient from `tau` and `deltaT` by the exponential-decay relation and
returns true on success; it fails (returns false) if `tau <= 0`, leaving
the slot unchanged (spec section 4.3). `bgexp` is the abstract
floating-point exponential. -/
def updateDecay (bgexp : BGFLOAT → BGFLOAT) (deltaT : BGFLOAT)
    (s : SpikingSynapse) : SpikingSynapse × Bool :=
  if 0 < s.tau then
    ({ s with decay := bgexp (-(deltaT / s.tau)) }, true)
  else
    (s, false)

/-- Modelled from the spec: `initSpikeQueue` (declared in
`AllSpikingSynapses.h`, body not in `src/`) clears the delay-queue word
and its index (spec sections 3 and 4.1). -/
def initSpikeQueue (s : SpikingSynapse) : SpikingSynapse :=
  { s with delayQueue := 0, delayIdx := 0 }

/-- Modelled from the spec: `resetSynapse` / `resetEdge` (declared in
`AllSpikingSynapses.h`, body not in `src/`) recomputes `decay` from the
current `tau` and `deltaT` and clears the delay queue and its index
(spec section 4.1). -/
def resetSynapse (bgexp : BGFLOAT → BGFLOAT) (deltaT : BGFLOAT)
    (s : SpikingSynapse) : SpikingSynapse :=
  initSpikeQueue (updateDecay bgexp deltaT s).1

/-- Modelled from the spec: `changePSR` (declared in
`AllSpikingSynapses.h`, body not in `src/`) applies
`response = response * decay + contribution` (spec section 4.5). -/
def changePSR (s : SpikingSynapse) : SpikingSynapse :=
  { s with psr := s.psr * s.decay + s.W }

/-- Modelled from the spec: the per-step update of one edge (spec section
4.5), parametric in the response-change operation `ch` so that the same
control flow can run through a directly-invoked operation or through a
resolved handle: (a) if an event is due, invoke the response-change
operation and deposit the response into the target accumulator; (b)
advance the delay queue unconditionally. Returns the updated edge and the
amount deposited into the accumulator. -/
def advanceSynapseWith (ch : SpikingSynapse → SpikingSynapse)
    (s : SpikingSynapse) : SpikingSynapse × BGFLOAT :=
  if isSpikeQueue s then
    let s1 := ch s
    (advanceDelayQueue s1, s1.psr)
  else
    (advanceDelayQueue s, 0)

/-- Modelled from the spec: the sequential-path `advanceSynapse` (declared
in `AllSpikingSynapses.h`, body not in `src/`), which invokes the
edge-kind's own `changePSR` directly. -/
def advanceSynapse (s : SpikingSynapse) : SpikingSynapse × BGFLOAT :=
  advanceSynapseWith changePSR s

/-- The per-step observation of one edge: whether an event was due this
step, and the response value after the step. -/
def stepTrace : Nat → SpikingSynapse → List (Bool × BGFLOAT)
  | 0, _ => []
  | n + 1, s =>
    (isSpikeQueue s, (advanceSynapse s).1.psr) :: stepTrace n (advanceSynapse s).1

/-- Modelled from the spec: the resolved response-change handle
`m_fpChangePSR` that `setAdvanceSynapsesDeviceParams` publishes for the
parallel path (declared in `AllSpikingSynapses.h`, body not in `src/`):
the same `changePSR` operation, resolved once at setup so the per-step
loop never performs capability-based dispatch (spec section 4.4). -/
def m_fpChangePSR : SpikingSynapse → SpikingSynapse := changePSR

/-- Modelled from the spec: the sequential host path walks all edges in
order, updating each in place and accumulating the deposits serially
(spec section 5). Returns the per-edge results in slot order and the
total deposited into the shared accumulator. -/
def advanceSynapsesHost (edges : List SpikingSynapse) :
    List SpikingSynapse × BGFLOAT :=
  edges.foldl
    (fun acc s =>
      let r := advanceSynapse s
      (acc.1 ++ [r.1], acc.2 + r.2))
    ([], 0)

/-- The deposits every edge of the population contributes this step, in
slot order, when each edge is advanced through the resolved handle. -/
def deviceDeposits (edges : List SpikingSynapse) : List BGFLOAT :=
  edges.map (fun s => (advanceSynapseWith m_fpChangePSR s).2)

/-- Modelled from the spec: the parallel device path `advanceSynapses`
(declared in `AllSpikingSynapses.h`, body not in `src/`): one independent
unit of work per edge, each invoking the resolved handle `m_fpChangePSR`
on its own slot, with the deposits combined into the shared accumulator
in an unspecified schedule order `sched` (spec sections 4.4 and 5). -/
def advanceSynapsesDevice (sched : List Nat) (edges : List SpikingSynapse) :
    List SpikingSynapse × BGFLOAT :=
  (edges.map (fun s => (advanceSynapseWith m_fpChangePSR s).1),
   (sched.map (fun i => (deviceDeposits edges).getD i 0)).sum)

/-- One whitespace-delimited scalar of the checkpoint stream. -/
inductive BGScalar
  | flt (q : BGFLOAT)
  | int (n : Nat)
  | word (w : Nat)
deriving DecidableEq, Repr

/-- Modelled from the spec: `writeSynapse` (declared in
`AllSpikingSynapses.h`, body not in `src/`) emits one edge's record as
delimited scalars in the fixed field order decay, tau, total_delay,
delay-queue word, delay index, queue length (spec section 6). -/
def writeSynapse (s : SpikingSynapse) : List BGScalar :=
  [BGScalar.flt s.decay, BGScalar.flt s.tau, BGScalar.int s.total_delay,
   BGScalar.word s.delayQueue, BGScalar.int s.delayIdx,
   BGScalar.int s.ldelayQueue]

/-- Modelled from the spec: `readSynapse` (declared in
`AllSpikingSynapses.h`, body not in `src/`) reads the six record fields
back into a slot in the same fixed order, treating every persisted field
as authoritative; a malformed stream leaves the slot unchanged
(spec section 6). -/
def readSynapse (input : List BGScalar) (s : SpikingSynapse) : SpikingSynapse :=
  match input with
  | [BGScalar.flt d, BGScalar.flt t, BGScalar.int td, BGScalar.word w,
     BGScalar.int di, BGScalar.int lq] =>
    { s with decay := d, tau := t, total_delay := td, delayQueue := w,
             delayIdx := di, ldelayQueue := lq }
  | _ => s

/-- A fresh, never-created slot of the synapse store: every field at its
bootstrap (zero) value. -/
def freshSlot : SpikingSynapse :=
  { decay := 0, tau := 0, psr := 0, W := 0, total_delay := 0,
    delayQueue := 0, delayIdx := 0, ldelayQueue := 0 }

end BrainGrid

namespace ConnStatic

open BrainGrid

/-- The element handed to `ConnStatic::readParameters`: its value string
and the three attributes the function queries, each `none` when the
corresponding `Query...Attribute` call does not succeed. -/
structure TiXmlElement where
  valueStr : String
  nConnsPerNeuronAttr : Option Int
  threshConnsRadiusAttr : Option BGFLOAT
  pRewiringAttr : Option BGFLOAT

/-- The error object `ConnStatic::readParameters` throws. -/
structure ParseParamError where
  paramName : String
  errorMessage : String
deriving DecidableEq, Repr

/-- The parameter state of a `ConnStatic` object. -/
structure ConnState where
  threshConnsRadius : BGFLOAT
  nConnsPerNeuron : Int
  pRewiring : BGFLOAT
deriving DecidableEq, Repr

/-- The `ConnStatic` constructor: all three parameters zeroed. -/
def init : ConnState :=
  { threshConnsRadius := 0, nConnsPerNeuron := 0, pRewiring := 0 }

/-- Embedding of `ConnStatic::readParameters` (ConnStatic.cpp lines 94-123): when the
element is named "ConnectionsParams", query and range-check each of the
three parameters in order, throwing a `ParseParamError` at the first
missing or out-of-range one; in every non-throwing case return true.
Each successful query assigns the member before its range check runs. -/
def readParameters (c : ConnState) (element : TiXmlElement) :
    Except ParseParamError (ConnState × Bool) :=
  if element.valueStr = "ConnectionsParams" then
    match element.nConnsPerNeuronAttr with
    | none =>
      Except.error ⟨"nConnsPerNeuron",
        "Static Connections param nConnsPerNeuron missing in XML."⟩
    | some n =>
      let c : ConnState := { c with nConnsPerNeuron := n }
      if c.nConnsPerNeuron < 0 then
        Except.error ⟨"nConnsPerNeuron",
          "Invalid negative Growth param nConnsPerNeuron value."⟩
      else
        match element.threshConnsRadiusAttr with
        | none =>
          Except.error ⟨"threshConnsRadius",
            "Static Connections param threshConnsRadius missing in XML."⟩
        | some t =>
          let c : ConnState := { c with threshConnsRadius := t }
          if c.threshConnsRadius < 0 then
            Except.error ⟨"threshConnsRadius",
              "Invalid negative Growth param threshConnsRadius value."⟩
          else
            match element.pRewiringAttr with
            | none =>
              Except.error ⟨"pRewiring",
                "Static Connections param pRewiring missing in XML."⟩
            | some p =>
              let c : ConnState := { c with pRewiring := p }
              if c.pRewiring < 0 ∨ c.pRewiring > 1 then
                Except.error ⟨"pRewiring",
                  "Invalid negative Growth param pRewiring value."⟩
              else
                Except.ok (c, true)
  else
    Except.ok (c, true)

/-- Whether an `Except` result is an error. -/
def isError {ε α : Type} : Except ε α → Bool
  | Except.error _ => true
  | Except.ok _ => false

/-- The "missing or out of range" condition for `nConnsPerNeuron`. -/
def nConnsBad (element : TiXmlElement) : Bool :=
  match element.nConnsPerNeuronAttr with
  | none => true
  | some n => n < 0

/-- The "missing or out of range" condition for `threshConnsRadius`. -/
def threshBad (element : TiXmlElement) : Bool :=
  match element.threshConnsRadiusAttr with
  | none => true
  | some t => t < 0

/-- The "missing or out of range" condition for `pRewiring`. -/
def pRewiringBad (element : TiXmlElement) : Bool :=
  match element.pRewiringAttr with
  | none => true
  | some p => p < 0 || p > 1

/-- One candidate destination within the radius, as stored in
`distDestNeurons[src_neuron]` (ConnStatic.cpp lines 46-56). -/
structure DistDestNeuron where
  dist : BGFLOAT
  dest_neuron : Nat
deriving DecidableEq, Repr

/-- The ascending-by-distance comparison the candidate list is sorted
with (ConnStatic.cpp line 59, "sort ascendant"). -/
def ddnLe (a b : DistDestNeuron) : Bool := a.dist ≤ b.dist

/-- One edge created through `synapses->addSynapse(iSyn, type, src_neuron,
dest_neuron, sum_point, deltaT)` (ConnStatic.cpp line 70); `sum_point`
is the index of the destination's summation-map entry whose address is
passed. -/
structure AddedSynapse where
  stype : synapseType
  src_neuron : Nat
  dest_neuron : Nat
  sum_point : Nat
deriving DecidableEq, Repr

/-- The candidate-gathering loop of `ConnStatic::setupConnections`
(ConnStatic.cpp lines 46-56): for one source neuron, every other neuron
whose distance is within `threshConnsRadius`, paired with its distance,
in destination order. -/
def distDestNeurons (dist : Nat → Nat → BGFLOAT) (threshConnsRadius : BGFLOAT)
    (num_neurons src_neuron : Nat) : List DistDestNeuron :=
  (List.range num_neurons).filterMap (fun dest_neuron =>
    if src_neuron ≠ dest_neuron ∧ dist src_neuron dest_neuron ≤ threshConnsRadius then
      some ⟨dist src_neuron dest_neuron, dest_neuron⟩
    else
      none)

/-- The per-source creation loop of `ConnStatic::setupConnections`
(ConnStatic.cpp lines 58-72): sort the candidates ascending by distance
and create an edge for each of the first `nConnsPerNeuron` of them (the
loop runs while `i < size && i < nConnsPerNeuron`, so for a non-positive
`nConnsPerNeuron` it runs zero times, which `Int.toNat` captures). -/
def connsOfSrc (dist : Nat → Nat → BGFLOAT) (synType : Nat → Nat → synapseType)
    (threshConnsRadius : BGFLOAT) (nConnsPerNeuron : Int)
    (num_neurons src_neuron : Nat) : List AddedSynapse :=
  (((distDestNeurons dist threshConnsRadius num_neurons src_neuron).mergeSort
      ddnLe).take nConnsPerNeuron.toNat).map
    (fun d => ⟨synType src_neuron d.dest_neuron, src_neuron, d.dest_neuron,
               d.dest_neuron⟩)

/-- Truncation of a scalar to `int`, as the C assignment
`int nRewiring = added * pRewiring` performs (toward zero). -/
def truncToInt (q : BGFLOAT) : Int := if 0 ≤ q then ⌊q⌋ else ⌈q⌉

/-- The observable outcome of `ConnStatic::setupConnections`: the edges
created (in creation order), the final `added` counter, and the computed
`nRewiring` value. -/
structure ConnSetupResult where
  edges : List AddedSynapse
  added : Nat
  nRewiring : Int
deriving DecidableEq, Repr

/-- Embedding of `ConnStatic::setupConnections` (ConnStatic.cpp lines 33-80): for each
source neuron in order, gather the candidate destinations within the
radius, sort them ascending by distance, and create an edge to each of
the `nConnsPerNeuron` nearest; afterwards compute
`nRewiring = added * pRewiring` (which the function then never uses). -/
def setupConnections (dist : Nat → Nat → BGFLOAT)
    (synType : Nat → Nat → synapseType) (threshConnsRadius : BGFLOAT)
    (nConnsPerNeuron : Int) (pRewiring : BGFLOAT) (num_neurons : Nat) :
    ConnSetupResult :=
  let edges := (List.range num_neurons).flatMap
    (connsOfSrc dist synType threshConnsRadius nConnsPerNeuron num_neurons)
  let added := edges.length
  let nRewiring := truncToInt ((added : BGFLOAT) * pRewiring)
  ⟨edges, added, nRewiring⟩

end ConnStatic

open BrainGrid ConnStatic

/-! ### Bit-level helper lemmas for the delay queue -/

theorem clearBit_zero (i : Nat) : clearBit 0 i = 0 := by
  simp [clearBit]

theorem clearBit_two_pow (p i : Nat) :
    clearBit (2 ^ p) i = if i = p then 0 else 2 ^ p := by
  simp only [clearBit, Nat.testBit_two_pow]
  by_cases h : p = i
  · subst h
    simp
  · have h2 : i ≠ p := fun hh => h hh.symm
    simp [h, h2]

theorem add_mod_inj {L a k D : Nat} (hk : k < L) (hD : D < L)
    (h : (a + k) % L = (a + D) % L) : k = D := by
  rcases Nat.le_total k D with hle | hle
  · have h2 : L ∣ (a + D) - (a + k) := (Nat.modEq_iff_dvd' (by omega)).mp h
    have h3 : (a + D) - (a + k) = D - k := by omega
    rw [h3] at h2
    have h4 : D - k = 0 := Nat.eq_zero_of_dvd_of_lt h2 (by omega)
    omega
  · have h2 : L ∣ (a + k) - (a + D) := (Nat.modEq_iff_dvd' (by omega)).mp h.symm
    have h3 : (a + k) - (a + D) = k - D := by omega
    rw [h3] at h2
    have h4 : k - D = 0 := Nat.eq_zero_of_dvd_of_lt h2 (by omega)
    omega

/-- The state of the delay queue after `k` advances of an edge whose word
holds exactly the bit scheduled `total_delay` slots ahead of `delayIdx`. -/
theorem advanceN_state (s : SpikingSynapse) (L D d0 : Nat)
    (hQ : s.ldelayQueue = L) (hT : s.total_delay = D) (hI : s.delayIdx = d0)
    (hW : s.delayQueue = 2 ^ ((d0 + D) % L)) (hd0 : d0 < L) (hD : D < L) :
    ∀ k, (advanceN k s).ldelayQueue = L ∧ (advanceN k s).total_delay = D ∧
      (advanceN k s).delayIdx = (d0 + k) % L ∧
      (advanceN k s).delayQueue = if D < k then 0 else 2 ^ ((d0 + D) % L) := by
  intro k
  induction k with
  | zero =>
    refine ⟨hQ, hT, ?_, ?_⟩
    · show s.delayIdx = (d0 + 0) % L
      rw [hI, Nat.add_zero, Nat.mod_eq_of_lt hd0]
    · show s.delayQueue = if D < 0 then 0 else 2 ^ ((d0 + D) % L)
      rw [hW]
      simp
  | succ k ih =>
    obtain ⟨ihQ, ihT, ihI, ihW⟩ := ih
    refine ⟨ihQ, ihT, ?_, ?_⟩
    · show ((advanceN k s).delayIdx + 1) % (advanceN k s).ldelayQueue =
        (d0 + (k + 1)) % L
      rw [ihQ, ihI, Nat.mod_add_mod, Nat.add_assoc]
    · show clearBit (advanceN k s).delayQueue (advanceN k s).delayIdx =
        if D < k + 1 then 0 else 2 ^ ((d0 + D) % L)
      rw [ihW, ihI]
      by_cases hDk : D < k
      · simp only [if_pos hDk, clearBit_zero, if_pos (Nat.lt_succ_of_lt hDk)]
      · simp only [if_neg hDk, clearBit_two_pow]
        by_cases hkD : k = D
        · subst hkD
          simp
        · have hkL : k < L := by omega
          have hne : (d0 + k) % L ≠ (d0 + D) % L := fun hc =>
            hkD (add_mod_inj hkL hD hc)
          have hnlt : ¬ D < k + 1 := by omega
          simp [hne, hnlt]

/-- C1: for every edge with `0 ≤ total_delay < ldelayQueue` whose delay
queue is initially empty, scheduling an arrival via `preSpikeHit` and then
advancing the queue step by step makes `isSpikeQueue` report true on
exactly step `total_delay` and false on every other step of one full
queue period. -/
theorem scheduleArrival_roundtrip (s s1 : SpikingSynapse)
    (hw : s.delayQueue = 0) (hd : s.delayIdx < s.ldelayQueue)
    (hD : s.total_delay < s.ldelayQueue)
    (h : preSpikeHit s = Except.ok s1) (k : Nat) (hk : k < s.ldelayQueue) :
    isSpikeQueue (advanceN k s1) = decide (k = s.total_delay) := by
  have hs1 : s1 = { s with delayQueue := 2 ^ ((s.delayIdx + s.total_delay) % s.ldelayQueue) } := by
    have h' := h
    simp only [preSpikeHit, hw, Nat.zero_testBit, Bool.false_eq_true, if_false,
      setBit, Nat.zero_or, Except.ok.injEq] at h'
    exact h'.symm
  have hstate := advanceN_state s1 s.ldelayQueue s.total_delay s.delayIdx
    (by rw [hs1]) (by rw [hs1]) (by rw [hs1]) (by rw [hs1]) hd hD k
  obtain ⟨hQ, hT, hI, hW⟩ := hstate
  rw [isSpikeQueue, hW, hI]
  by_cases hkD : k = s.total_delay
  · subst hkD
    simp
  · by_cases hlt : s.total_delay < k
    · simp only [if_pos hlt, Nat.zero_testBit]
      simp [hkD]
    · simp only [if_neg hlt, Nat.testBit_two_pow]
      have hne : (s.delayIdx + s.total_delay) % s.ldelayQueue ≠
          (s.delayIdx + k) % s.ldelayQueue := fun hc =>
        hkD (add_mod_inj hD hk hc).symm
      simp [hkD, hne]

/-- Witness for C1 at the spec's concrete scenario
`ldelayQueue = 4`, `total_delay = 2`, checked on the due step. -/
theorem scheduleArrival_roundtrip_witness :
    isSpikeQueue (advanceN 2 ⟨1, 10, 0, 0, 2, 4, 0, 4⟩) = true := by
  have h := scheduleArrival_roundtrip ⟨1, 10, 0, 0, 2, 0, 0, 4⟩
    ⟨1, 10, 0, 0, 2, 4, 0, 4⟩ rfl (by decide) (by decide) rfl 2 (by decide)
  simpa using h

/-- C6: calling `preSpikeHit` when the delay-queue bit at slot
`(delayIdx + total_delay) % ldelayQueue` is already set is flagged as an
overrun error; no state with the bit silently re-set is returned. -/
theorem preSpikeHit_overrun (s : SpikingSynapse)
    (h : s.delayQueue.testBit ((s.delayIdx + s.total_delay) % s.ldelayQueue) = true) :
    preSpikeHit s = Except.error SpikeQueueError.overrun := by
  simp only [preSpikeHit, h, if_true]

/-- Witness for C6: an edge whose scheduled slot is already occupied. -/
theorem preSpikeHit_overrun_witness :
    preSpikeHit ⟨0, 0, 0, 0, 0, 1, 0, 4⟩ = Except.error SpikeQueueError.overrun :=
  preSpikeHit_overrun ⟨0, 0, 0, 0, 0, 1, 0, 4⟩ (by decide)

/-- C5: `updateDecay` returns the failure indicator false exactly when the
edge's `tau` is not positive, and on success (`tau > 0`) recomputes the
edge's decay from `tau` and `deltaT`. -/
theorem updateDecay_spec (bgexp : BGFLOAT → BGFLOAT) (deltaT : BGFLOAT)
    (s : SpikingSynapse) :
    ((updateDecay bgexp deltaT s).2 = true ↔ 0 < s.tau) ∧
    (0 < s.tau →
      (updateDecay bgexp deltaT s).1.decay = bgexp (-(deltaT / s.tau))) := by
  unfold updateDecay
  by_cases h : 0 < s.tau
  · simp [h]
  · simp [h]

/-- Witness for C5: a well-configured edge (`tau = 10 > 0`). -/
theorem updateDecay_spec_witness :
    (updateDecay (fun q => q) 1 ⟨0, 10, 0, 0, 0, 0, 0, 4⟩).2 = true ∧
    (updateDecay (fun q => q) 1 ⟨0, 10, 0, 0, 0, 0, 0, 4⟩).1.decay = -(1 / 10) := by
  have h := updateDecay_spec (fun q => q) 1 ⟨0, 10, 0, 0, 0, 0, 0, 4⟩
  exact ⟨h.1.mpr (by norm_num), h.2 (by norm_num)⟩

/-- C7: `resetSynapse` is idempotent with respect to `decay`: for an edge
with `tau > 0` and any step size, resetting twice in a row leaves `decay`
equal to its value after one reset. -/
theorem resetSynapse_decay_idempotent (bgexp : BGFLOAT → BGFLOAT)
    (deltaT : BGFLOAT) (s : SpikingSynapse) (h : 0 < s.tau) :
    (resetSynapse bgexp deltaT (resetSynapse bgexp deltaT s)).decay =
      (resetSynapse bgexp deltaT s).decay := by
  unfold resetSynapse initSpikeQueue updateDecay
  simp [h]

/-- Witness for C7: a concrete edge with `tau = 10 > 0`. -/
theorem resetSynapse_decay_idempotent_witness :
    (resetSynapse (fun q => q) 1 (resetSynapse (fun q => q) 1
        ⟨0, 10, 0, 0, 2, 5, 1, 4⟩)).decay =
      (resetSynapse (fun q => q) 1 ⟨0, 10, 0, 0, 2, 5, 1, 4⟩).decay :=
  resetSynapse_decay_idempotent (fun q => q) 1 ⟨0, 10, 0, 0, 2, 5, 1, 4⟩ (by norm_num)

/-- C8 counterexample: checkpointing an edge whose response state is
nonzero and restoring it into an all-zero fresh slot does not reproduce
the same decayed response values over one full queue period (length 4):
the restored slot's response after the due step is 0 where the source's
is 1, because the six-field record does not carry the response state. -/
theorem checkpoint_roundtrip_counterexample :
    stepTrace 4 (readSynapse (writeSynapse ⟨1, 1, 1, 0, 0, 1, 0, 4⟩) freshSlot) ≠
      stepTrace 4 ⟨1, 1, 1, 0, 0, 1, 0, 4⟩ := by
  intro h
  have hr : readSynapse (writeSynapse ⟨1, 1, 1, 0, 0, 1, 0, 4⟩) freshSlot =
      (⟨1, 1, 0, 0, 0, 1, 0, 4⟩ : SpikingSynapse) := rfl
  rw [hr] at h
  have h1 := congrArg (fun l => (l.headD (false, 0)).2) h
  dsimp only at h1
  have e1 : ((stepTrace 4 (⟨1, 1, 0, 0, 0, 1, 0, 4⟩ : SpikingSynapse)).headD
      (false, 0)).2 = 0 * 1 + 0 := rfl
  have e2 : ((stepTrace 4 (⟨1, 1, 1, 0, 0, 1, 0, 4⟩ : SpikingSynapse)).headD
      (false, 0)).2 = 1 * 1 + 0 := rfl
  rw [e1, e2] at h1
  norm_num at h1

/-- C8 (amended): `writeSynapse` emits the record in the fixed field order
decay, tau, total_delay, delay-queue word, delay index, queue length, and
`readSynapse` applied to that output restores a slot with identical
subsequent step-by-step behavior (due/not-due sequence and decayed
response values) for any number of steps, provided the target slot's
non-persisted response state `psr` and weight `W` already match the
source edge's. -/
theorem checkpoint_roundtrip_amended (s f : SpikingSynapse)
    (hpsr : f.psr = s.psr) (hW : f.W = s.W) :
    writeSynapse s = [BGScalar.flt s.decay, BGScalar.flt s.tau,
      BGScalar.int s.total_delay, BGScalar.word s.delayQueue,
      BGScalar.int s.delayIdx, BGScalar.int s.ldelayQueue] ∧
    ∀ n, stepTrace n (readSynapse (writeSynapse s) f) = stepTrace n s := by
  refine ⟨rfl, ?_⟩
  have hres : readSynapse (writeSynapse s) f = s := by
    cases s
    cases f
    simp only [writeSynapse, readSynapse] at *
    simp_all
  intro n
  rw [hres]

/-- Witness for C8 (amended): a concrete mid-simulation edge restored into
a slot whose response state and weight match. -/
theorem checkpoint_roundtrip_amended_witness :
    stepTrace 4 (readSynapse (writeSynapse ⟨1, 1, 1, 0, 2, 4, 0, 4⟩)
        ⟨0, 0, 1, 0, 0, 0, 0, 0⟩) = stepTrace 4 ⟨1, 1, 1, 0, 2, 4, 0, 4⟩ :=
  (checkpoint_roundtrip_amended ⟨1, 1, 1, 0, 2, 4, 0, 4⟩
    ⟨0, 0, 1, 0, 0, 0, 0, 0⟩ rfl rfl).2 4

/-! ### Helper lemmas for the sequential/parallel advance paths -/

theorem advanceSynapsesHost_foldl (edges : List SpikingSynapse) :
    ∀ (l0 : List SpikingSynapse) (a0 : BGFLOAT),
      edges.foldl
        (fun acc s =>
          let r := advanceSynapse s
          (acc.1 ++ [r.1], acc.2 + r.2))
        (l0, a0) =
      (l0 ++ edges.map (fun s => (advanceSynapse s).1),
       a0 + (edges.map (fun s => (advanceSynapse s).2)).sum) := by
  induction edges with
  | nil => intro l0 a0; simp
  | cons s t ih =>
    intro l0 a0
    rw [List.foldl_cons, ih]
    simp [add_assoc]

theorem advanceSynapsesHost_eq (edges : List SpikingSynapse) :
    advanceSynapsesHost edges =
      (edges.map (fun s => (advanceSynapse s).1),
       (edges.map (fun s => (advanceSynapse s).2)).sum) := by
  rw [advanceSynapsesHost, advanceSynapsesHost_foldl]
  simp

theorem map_getD_range (l : List BGFLOAT) :
    (List.range l.length).map (fun i => l.getD i 0) = l := by
  induction l with
  | nil => simp
  | cons a t ih =>
    rw [List.length_cons, List.range_succ_eq_map, List.map_cons, List.map_map]
    have h1 : ((fun i => (a :: t).getD i 0) ∘ Nat.succ) = fun i => t.getD i 0 := by
      funext i
      simp
    rw [h1, ih]
    simp

/-- C9: for the same edge population, the sequential per-edge update path
and the parallel device path dispatching through the resolved
`m_fpChangePSR` handle produce identical per-edge results and the same
accumulator total, for every parallel schedule (permutation of the edge
indices). -/
theorem advanceSynapses_device_eq_host (edges : List SpikingSynapse)
    (sched : List Nat) (hperm : sched.Perm (List.range edges.length)) :
    advanceSynapsesDevice sched edges = advanceSynapsesHost edges := by
  rw [advanceSynapsesHost_eq, advanceSynapsesDevice]
  refine Prod.ext rfl ?_
  show (sched.map (fun i => (deviceDeposits edges).getD i 0)).sum =
    (edges.map (fun s => (advanceSynapse s).2)).sum
  have hlen : edges.length = (deviceDeposits edges).length := by
    rw [deviceDeposits, List.length_map]
  have hperm2 := hperm.map (fun i => (deviceDeposits edges).getD i 0)
  rw [hperm2.sum_eq, hlen, map_getD_range]
  rfl

/-- Witness for C9: two edges advanced under the reversed schedule. -/
theorem advanceSynapses_device_eq_host_witness :
    advanceSynapsesDevice [1, 0] [⟨1, 1, 1, 0, 0, 1, 0, 4⟩, ⟨1, 1, 2, 3, 0, 0, 1, 4⟩] =
      advanceSynapsesHost [⟨1, 1, 1, 0, 0, 1, 0, 4⟩, ⟨1, 1, 2, 3, 0, 0, 1, 4⟩] :=
  advanceSynapses_device_eq_host [⟨1, 1, 1, 0, 0, 1, 0, 4⟩, ⟨1, 1, 2, 3, 0, 0, 1, 4⟩]
    [1, 0] (by decide)

/-- C4: `readParameters` throws a `ParseParamError` exactly when the
element is named "ConnectionsParams" and one of its three parameters is
missing or out of range (`nConnsPerNeuron` absent or negative,
`threshConnsRadius` absent or negative, `pRewiring` absent, negative or
above 1); in every non-throwing case it returns true, never false,
including when the element name differs (then nothing is validated). -/
theorem readParameters_spec (c : ConnState) (element : TiXmlElement) :
    (isError (readParameters c element) =
      (element.valueStr == "ConnectionsParams" &&
        (nConnsBad element || threshBad element || pRewiringBad element))) ∧
    (∀ c' b, readParameters c element = Except.ok (c', b) → b = true) := by
  unfold readParameters nConnsBad threshBad pRewiringBad
  by_cases hv : element.valueStr = "ConnectionsParams"
  · simp only [hv, if_true, beq_iff_eq, Bool.true_and]
    rcases element.nConnsPerNeuronAttr with _ | n
    · simp [isError]
    · by_cases hn : n < 0
      · simp [hn, isError]
      · simp only [hn, decide_eq_true_eq, if_neg hn]
        rcases element.threshConnsRadiusAttr with _ | t
        · simp [isError]
        · by_cases ht : t < 0
          · simp [ht, isError]
          · simp only [ht, if_neg ht]
            rcases element.pRewiringAttr with _ | p
            · simp [isError]
            · by_cases hp : p < 0 ∨ p > 1
              · simp [hp, isError]
              · simp only [hp, if_neg hp, isError]
                have hp1 : ¬ p < 0 := fun hc => hp (Or.inl hc)
                have hp2 : ¬ p > 1 := fun hc => hp (Or.inr hc)
                simp [hp1, hp2]
  · simp [hv, isError]

/-- Witness for C4: the error case (all parameters missing) and a
non-"ConnectionsParams" element (no validation, no error). -/
theorem readParameters_spec_witness :
    isError (readParameters init ⟨"ConnectionsParams", none, none, none⟩) = true ∧
    isError (readParameters init ⟨"Other", none, none, none⟩) = false := by
  have h1 := readParameters_spec init ⟨"ConnectionsParams", none, none, none⟩
  have h2 := readParameters_spec init ⟨"Other", none, none, none⟩
  exact ⟨by rw [h1.1]; rfl, by rw [h2.1]; rfl⟩

/-! ### Helper lemmas for the connectivity generator -/

theorem connsOfSrc_src_eq (dist : Nat → Nat → BGFLOAT)
    (synType : Nat → Nat → synapseType) (thresh : BGFLOAT) (nConns : Int)
    (N : Nat) : ∀ a, ∀ e ∈ connsOfSrc dist synType thresh nConns N a,
      e.src_neuron = a := by
  intro a e he
  unfold connsOfSrc at he
  rw [List.mem_map] at he
  obtain ⟨d, _, rfl⟩ := he
  rfl

theorem length_connsOfSrc (dist : Nat → Nat → BGFLOAT)
    (synType : Nat → Nat → synapseType) (thresh : BGFLOAT) (nConns : Int)
    (N a : Nat) :
    (connsOfSrc dist synType thresh nConns N a).length =
      min nConns.toNat (distDestNeurons dist thresh N a).length := by
  unfold connsOfSrc
  rw [List.length_map, List.length_take, (List.mergeSort_perm _ _).length_eq]

theorem length_filter_flatMap (F : Nat → List AddedSynapse) (s : Nat)
    (hF : ∀ a, ∀ e ∈ F a, e.src_neuron = a) :
    ∀ srcs : List Nat, srcs.Nodup →
      ((srcs.flatMap F).filter (fun e => e.src_neuron == s)).length =
        if s ∈ srcs then (F s).length else 0 := by
  intro srcs
  induction srcs with
  | nil => intro _; simp
  | cons a t ih =>
    intro hnd
    rw [List.flatMap_cons, List.filter_append, List.length_append]
    rw [List.nodup_cons] at hnd
    by_cases has : a = s
    · subst has
      have h1 : (F a).filter (fun e => e.src_neuron == a) = F a :=
        List.filter_eq_self.mpr (fun e he => by simp [hF a e he])
      rw [h1, ih hnd.2, if_neg hnd.1, if_pos (List.mem_cons_self a t)]
      simp
    · have h1 : (F a).filter (fun e => e.src_neuron == s) = [] :=
        List.filter_eq_nil_iff.mpr (fun e he => by simp [hF a e he, has])
      rw [h1, ih hnd.2]
      have h2 : s ∈ a :: t ↔ s ∈ t := by
        constructor
        · intro h
          rcases List.mem_cons.mp h with h | h
          · exact absurd h.symm has
          · exact h
        · exact fun h => List.mem_cons_of_mem a h
      by_cases hst : s ∈ t
      · rw [if_pos hst, if_pos (h2.mpr hst)]
        simp
      · rw [if_neg hst, if_neg (fun hc => hst (h2.mp hc))]
        simp

/-- C2: for every source neuron, `setupConnections` creates exactly
`min(nConnsPerNeuron, number of candidate destinations within the radius)`
edges whose source is that neuron, hence never more than the configured
per-node maximum. -/
theorem setupConnections_per_source_bound (dist : Nat → Nat → BGFLOAT)
    (synType : Nat → Nat → synapseType) (thresh : BGFLOAT) (nConns : Int)
    (pRewiring : BGFLOAT) (N s : Nat) (hs : s < N) :
    (((setupConnections dist synType thresh nConns pRewiring N).edges.filter
        (fun e => e.src_neuron == s)).length =
      min nConns.toNat (distDestNeurons dist thresh N s).length) ∧
    ((setupConnections dist synType thresh nConns pRewiring N).edges.filter
        (fun e => e.src_neuron == s)).length ≤ nConns.toNat := by
  have hedges : (setupConnections dist synType thresh nConns pRewiring N).edges =
      (List.range N).flatMap (connsOfSrc dist synType thresh nConns N) := rfl
  rw [hedges,
    length_filter_flatMap _ s (connsOfSrc_src_eq dist synType thresh nConns N)
      (List.range N) (List.nodup_range N),
    if_pos (List.mem_range.mpr hs), length_connsOfSrc]
  exact ⟨rfl, Nat.min_le_left _ _⟩

/-- Witness for C2: two neurons at distance 0, radius 0, one connection
per neuron allowed. -/
theorem setupConnections_per_source_bound_witness :
    (((setupConnections (fun _ _ => 0) (fun _ _ => synapseType.EE) 0 1 0 2).edges.filter
        (fun e => e.src_neuron == 0)).length =
      min (Int.toNat 1) (distDestNeurons (fun _ _ => 0) 0 2 0).length) ∧
    ((setupConnections (fun _ _ => 0) (fun _ _ => synapseType.EE) 0 1 0 2).edges.filter
        (fun e => e.src_neuron == 0)).length ≤ Int.toNat 1 :=
  setupConnections_per_source_bound (fun _ _ => 0) (fun _ _ => synapseType.EE)
    0 1 0 2 0 (by decide)

/-- C3: `setupConnections` computes the rewiring target count
`nRewiring = added * pRewiring` but never applies it: the edges created
(and the `added` counter) are the same for every value of `pRewiring`. -/
theorem setupConnections_rewiring_unapplied (dist : Nat → Nat → BGFLOAT)
    (synType : Nat → Nat → synapseType) (thresh : BGFLOAT) (nConns : Int)
    (p q : BGFLOAT) (N : Nat) :
    ((setupConnections dist synType thresh nConns p N).edges =
      (setupConnections dist synType thresh nConns q N).edges) ∧
    ((setupConnections dist synType thresh nConns p N).added =
      (setupConnections dist synType thresh nConns q N).added) ∧
    ((setupConnections dist synType thresh nConns p N).nRewiring =
      truncToInt (((setupConnections dist synType thresh nConns p N).added : BGFLOAT) * p)) :=
  ⟨rfl, rfl, rfl⟩

/-- C10: `setupConnections` never creates a self-edge: candidate
destinations are gathered only when the source and destination differ. -/
theorem setupConnections_no_self_edge (dist : Nat → Nat → BGFLOAT)
    (synType : Nat → Nat → synapseType) (thresh : BGFLOAT) (nConns : Int)
    (pRewiring : BGFLOAT) (N : Nat) (e : AddedSynapse)
    (he : e ∈ (setupConnections dist synType thresh nConns pRewiring N).edges) :
    e.src_neuron ≠ e.dest_neuron := by
  have hedges : (setupConnections dist synType thresh nConns pRewiring N).edges =
      (List.range N).flatMap (connsOfSrc dist synType thresh nConns N) := rfl
  rw [hedges, List.mem_flatMap] at he
  obtain ⟨src, _, he⟩ := he
  unfold connsOfSrc at he
  rw [List.mem_map] at he
  obtain ⟨d, hd, rfl⟩ := he
  have hd2 : d ∈ distDestNeurons dist thresh N src :=
    (List.mergeSort_perm _ ddnLe).mem_iff.mp (List.take_subset _ _ hd)
  unfold distDestNeurons at hd2
  rw [List.mem_filterMap] at hd2
  obtain ⟨dest, _, hif⟩ := hd2
  by_cases hc : src ≠ dest ∧ dist src dest ≤ thresh
  · rw [if_pos hc] at hif
    have hd3 := Option.some.inj hif
    have hdd : d.dest_neuron = dest := by rw [← hd3]
    show src ≠ d.dest_neuron
    rw [hdd]
    exact hc.1
  · rw [if_neg hc] at hif
    exact absurd hif (by simp)

/-- Witness for C10: the concrete two-neuron population of the C2 witness
contains the edge from neuron 0 to neuron 1, which is not a self-edge. -/
theorem setupConnections_no_self_edge_witness :
    (⟨synapseType.EE, 0, 1, 1⟩ : AddedSynapse).src_neuron ≠
      (⟨synapseType.EE, 0, 1, 1⟩ : AddedSynapse).dest_neuron := by
  have h1 : connsOfSrc (fun _ _ => 0) (fun _ _ => synapseType.EE) 0 1 2 0 =
      [⟨synapseType.EE, 0, 1, 1⟩] := by
    unfold connsOfSrc
    rw [(by decide : distDestNeurons (fun _ _ => 0) 0 2 0 = [⟨0, 1⟩]),
      List.mergeSort_singleton]
    rfl
  have h2 : connsOfSrc (fun _ _ => 0) (fun _ _ => synapseType.EE) 0 1 2 1 =
      [⟨synapseType.EE, 1, 0, 0⟩] := by
    unfold connsOfSrc
    rw [(by decide : distDestNeurons (fun _ _ => 0) 0 2 1 = [⟨0, 0⟩]),
      List.mergeSort_singleton]
    rfl
  have hedges : (setupConnections (fun _ _ => 0) (fun _ _ => synapseType.EE) 0 1 0 2).edges =
      [⟨synapseType.EE, 0, 1, 1⟩, ⟨synapseType.EE, 1, 0, 0⟩] := by
    show (List.range 2).flatMap
      (connsOfSrc (fun _ _ => 0) (fun _ _ => synapseType.EE) 0 1 2) = _
    rw [(by decide : List.range 2 = [0, 1]), List.flatMap_cons, List.flatMap_cons,
      List.flatMap_nil, h1, h2]
    rfl
  exact setupConnections_no_self_edge (fun _ _ => 0) (fun _ _ => synapseType.EE) 0 1 0 2
    ⟨synapseType.EE, 0, 1, 1⟩ (by rw [hedges]; exact List.mem_cons_self _ _)
